import Mathlib

/-!
Shallow embedding of the Denploy application-platform core: the KV database
layer (src/db/kv.ts), the deployment pipeline (src/core/deployment.ts), the
file manager (src/core/file-manager.ts) and the process manager, together
with proofs checking the natural-language specification against it.

Modelling conventions:
* Deno KV is modelled by association lists.  Key families whose range-scan
  order matters (`deployments_by_app`) are kept in ascending key order by a
  sorted insert (`kvInsert`), mirroring the lexicographic key order of the
  store; a reverse scan with a limit is `List.reverse` followed by
  `List.take`.  Point-lookup-only families use plain association lists.
* `Date` fields (`createdAt`, `updatedAt`, `deployedAt`, `assignedAt`) are
  omitted: no claim refers to them.
* Filesystem state is abstracted to the claim-relevant artifacts: the set of
  release directories, the set of release directories containing `main.ts`,
  and the per-app `current` symlink target.  Transient files (the uploaded
  archive, which the zip branch saves and removes again) are not tracked.
* Fallible operations return the mutated world together with
  `Except String α`, since a thrown exception in the source does not undo
  the store/filesystem mutations already performed.
-/

namespace Denploy

/-- Deployment lifecycle status, from `DeploymentStatus` in src/db/models.ts. -/
inductive DeploymentStatus where
  | pending
  | building
  | active
  | inactive
  | failed
deriving DecidableEq, Repr

/-- Application lifecycle status, from `AppStatus` in src/db/models.ts. -/
inductive AppStatus where
  | stopped
  | running
  | building
  | error
  | crashed
deriving DecidableEq, Repr

/-- Artifact kind of a deployment (`fileType` in src/db/models.ts). -/
inductive FileType where
  | single
  | zip
deriving DecidableEq, Repr

/-- The `App` record of src/db/models.ts (Date fields and `envVars` omitted;
no claim depends on them). -/
structure App where
  id : String
  userId : String
  name : String
  subdomain : String
  customDomains : List String
  status : AppStatus
  port : Nat
  processId : Option Nat
  currentDeploymentId : Option String
deriving DecidableEq, Repr

/-- The `Deployment` record of src/db/models.ts (Date fields and the optional
`commitHash` omitted). -/
structure Deployment where
  id : String
  appId : String
  version : Nat
  deployedBy : String
  status : DeploymentStatus
  fileType : FileType
  filePath : String
  buildLogs : String
  errorMessage : Option String
deriving DecidableEq, Repr

/-! ## Association-list primitives modelling Deno KV -/

/-- Point lookup in an (unordered) association list: the value stored under
key `k`, if any. -/
def alGet {κ : Type} {α : Type} [DecidableEq κ] : List (κ × α) → κ → Option α
  | [], _ => none
  | (k', v) :: t, k => if k = k' then some v else alGet t k

/-- Store `v` under key `k`, overwriting an existing binding (KV `set`). -/
def alSet {κ : Type} {α : Type} [DecidableEq κ] : List (κ × α) → κ → α → List (κ × α)
  | [], k, v => [(k, v)]
  | (k', v') :: t, k, v => if k = k' then (k, v) :: t else (k', v') :: alSet t k v

/-- Remove the binding of key `k` (KV `delete` / `Map.delete`; a key is
bound at most once, so removing every binding of `k` is the same thing). -/
def alDel {κ : Type} {α : Type} [DecidableEq κ] (l : List (κ × α)) (k : κ) : List (κ × α) :=
  l.filter (fun p => decide (p.1 ≠ k))

/-- Lexicographic comparison of character lists by code point. -/
def charListLt : List Char → List Char → Bool
  | [], [] => false
  | [], _ :: _ => true
  | _ :: _, [] => false
  | a :: as, b :: bs =>
    if a.toNat < b.toNat then true
    else if b.toNat < a.toNat then false
    else charListLt as bs

/-- Lexicographic string order by code point — the key order of the store
(Deno KV orders string key parts by their UTF-8 bytes, which agrees with
code-point order on the ASCII keys used here). -/
def strLt (a b : String) : Bool :=
  charListLt a.data b.data

/-- Order-maintaining KV `set` for string-keyed families whose range-scan
order matters: inserts before the first strictly larger key, overwrites an
equal key. -/
def kvInsert : List (String × Deployment) → String → Deployment → List (String × Deployment)
  | [], k, v => [(k, v)]
  | (k', v') :: t, k, v =>
    if strLt k k' then (k, v) :: (k', v') :: t
    else if k = k' then (k, v) :: t
    else (k', v') :: kvInsert t k v

/-- Point lookup in the sorted deployment family. -/
def kvGet : List (String × Deployment) → String → Option Deployment
  | [], _ => none
  | (k', v) :: t, k => if k = k' then some v else kvGet t k

/-! ## The KV database state (src/db/kv.ts)

The `deployments` field models the `["deployments", id]` primary family; the
source keeps `["deployments_by_app", appId, id]` in lockstep with it (both
keys are written with the same value inside one atomic commit in
`createDeployment` and `updateDeployment`), so a single list keyed by `id`
represents both.  A scan of `["deployments_by_app", appId, ·]` is the
`appId`-filter of this list, which preserves the store's key order. -/

structure KVState where
  apps : List (String × App)
  appsByUser : List ((String × String) × App)
  appsBySubdomain : List (String × String)
  deployments : List (String × Deployment)
  ports : List (Nat × String)
deriving DecidableEq, Repr

/-- The empty store. -/
def emptyKV : KVState :=
  { apps := [], appsByUser := [], appsBySubdomain := [], deployments := [], ports := [] }

/-- KVDatabase.createApp: atomic commit that checks `["apps", id]` and
`["apps_by_subdomain", subdomain]` are absent and writes the record under
its primary key, its per-user index key and the subdomain index.  A failed
check throws and leaves the store unchanged. -/
def createApp (db : KVState) (app : App) : Except String KVState :=
  if (alGet db.apps app.id).isSome || (alGet db.appsBySubdomain app.subdomain).isSome then
    .error "App already exists or subdomain taken"
  else
    .ok { db with
      apps := alSet db.apps app.id app
      appsByUser := alSet db.appsByUser (app.userId, app.id) app
      appsBySubdomain := alSet db.appsBySubdomain app.subdomain app.id }

/-- KVDatabase.getAppById. -/
def getAppById (db : KVState) (appId : String) : Option App :=
  alGet db.apps appId

/-- KVDatabase.updateApp: reads the current record, merges the partial
update into it, and writes the primary key and the per-user index key in one
atomic commit.  The index key uses the userId of the record read before the
merge, exactly as the source does (`app.userId`, not `updatedApp.userId`).
The partial update `{ ...app, ...updates }` is modelled by applying `f`. -/
def updateApp (db : KVState) (appId : String) (f : App → App) : Except String KVState :=
  match alGet db.apps appId with
  | none => .error "App not found"
  | some app =>
    let updatedApp := f app
    .ok { db with
      apps := alSet db.apps appId updatedApp
      appsByUser := alSet db.appsByUser (app.userId, appId) updatedApp }

/-- KVDatabase.deleteApp: a missing app returns silently; otherwise the
primary key, the per-user index key and the subdomain index key are deleted
in one atomic commit. -/
def deleteApp (db : KVState) (appId : String) : KVState :=
  match alGet db.apps appId with
  | none => db
  | some app =>
    { db with
      apps := alDel db.apps appId
      appsByUser := alDel db.appsByUser (app.userId, appId)
      appsBySubdomain := alDel db.appsBySubdomain app.subdomain }

/-- KVDatabase.createDeployment: writes the primary and by-app keys with the
same value in one atomic commit (no existence check). -/
def createDeployment (db : KVState) (d : Deployment) : KVState :=
  { db with deployments := kvInsert db.deployments d.id d }

/-- KVDatabase.getDeploymentById. -/
def getDeploymentById (db : KVState) (deploymentId : String) : Option Deployment :=
  kvGet db.deployments deploymentId

/-- KVDatabase.getDeploymentsByApp with its default `limit = 10`: a reverse
range scan of `["deployments_by_app", appId, ·]`, i.e. the deployments of
`appId` in descending deployment-id order, truncated to `limit` entries.
The source comment says "Get newest first", but the scan key is the
deployment UUID, so the order is by id, not by time. -/
def getDeploymentsByApp (db : KVState) (appId : String) (limit : Nat := 10) : List Deployment :=
  ((((db.deployments.filter (fun p => p.2.appId = appId)).map Prod.snd).reverse).take limit)

/-- KVDatabase.updateDeployment: read, merge, write both keys atomically;
throws when the deployment does not exist. -/
def updateDeployment (db : KVState) (deploymentId : String) (f : Deployment → Deployment) :
    Except String KVState :=
  match kvGet db.deployments deploymentId with
  | none => .error "Deployment not found"
  | some d => .ok { db with deployments := kvInsert db.deployments deploymentId (f d) }

/-! ## Port assignment operations (src/db/kv.ts) -/

/-- KVDatabase.assignPort: unconditional `set` of `["port_assignments", port]`
(the stored `PortAssignment` is represented by its `appId`). -/
def assignPort (db : KVState) (port : Nat) (appId : String) : KVState :=
  { db with ports := alSet db.ports port appId }

/-- KVDatabase.getPortAssignment. -/
def getPortAssignment (db : KVState) (port : Nat) : Option String :=
  alGet db.ports port

/-- KVDatabase.releasePort: unconditional delete. -/
def releasePort (db : KVState) (port : Nat) : KVState :=
  { db with ports := alDel db.ports port }

/-- Loop body of KVDatabase.getNextAvailablePort: check the current port's
assignment; a free port is returned; otherwise increment, and throw as soon
as the incremented port exceeds 65535.  Structural fuel makes the recursion
obviously terminating; the initial fuel 65536 strictly exceeds the number of
increments the port-range guard allows, so the fuel-exhaustion branch is
unreachable. -/
def nextPortLoop (db : KVState) : Nat → Nat → Except String Nat
  | _, 0 => .error "No available ports"
  | port, fuel + 1 =>
    match getPortAssignment db port with
    | none => .ok port
    | some _ =>
      if port + 1 > 65535 then .error "No available ports"
      else nextPortLoop db (port + 1) fuel

/-- KVDatabase.getNextAvailablePort. -/
def getNextAvailablePort (db : KVState) (startPort : Nat) : Except String Nat :=
  nextPortLoop db startPort 65536

/-! ## Configuration defaults (src/config.ts) -/

/-- config.limits.maxDeploymentsPerApp with its default value. -/
def maxDeploymentsPerApp : Nat := 10

/-- config.apps.startPort with its default value. -/
def defaultStartPort : Nat := 8001

/-! ## Filesystem model (src/core/file-manager.ts)

A release directory is addressed by its coordinates
`(userId, appName, deploymentId)`, standing for the path
`basePath/userId/appName/releases/deploymentId`; the `current` symlink of an
app is addressed by `(userId, appName)`. -/

/-- Claim-relevant filesystem state: which release directories exist, which
of them contain a `main.ts` entry point, and where each app's `current`
symlink points. -/
structure FS where
  releaseDirs : List (String × String × String)
  mains : List (String × String × String)
  currentLink : List ((String × String) × String)
deriving DecidableEq, Repr

/-- Path string of a release directory (config.apps.basePath = "./apps"). -/
def releasePath (userId appName deploymentId : String) : String :=
  "./apps/" ++ userId ++ "/" ++ appName ++ "/releases/" ++ deploymentId

/-- Path string of an app's `current` symlink. -/
def currentPathOf (userId appName : String) : String :=
  "./apps/" ++ userId ++ "/" ++ appName ++ "/current"

/-- FileManager.createDeploymentDirectory: `ensureDir` of the release
directory; returns its path. -/
def createDeploymentDirectory (fs : FS) (userId appName deploymentId : String) : FS × String :=
  ({ fs with releaseDirs := (userId, appName, deploymentId) :: fs.releaseDirs },
   releasePath userId appName deploymentId)

/-- Writing the single-file artifact as `main.ts` into a release directory
(the `Deno.writeFile` in the "single" branch of deployApp). -/
def writeMainFile (fs : FS) (userId appName deploymentId : String) : FS :=
  { fs with mains := (userId, appName, deploymentId) :: fs.mains }

/-- FileManager.validateMainFile: does `main.ts` exist in the release
directory? -/
def validateMainFile (fs : FS) (userId appName deploymentId : String) : Bool :=
  fs.mains.contains (userId, appName, deploymentId)

/-- FileManager.activateDeployment: removes the existing `current` symlink
and re-creates it pointing at the given release directory; returns the
`current` path. -/
def activateDeployment (fs : FS) (userId appName deploymentId : String) : FS × String :=
  ({ fs with currentLink := alSet fs.currentLink (userId, appName) deploymentId },
   currentPathOf userId appName)

/-- FileManager.deleteDeployment: recursively removes a release directory
(and hence its `main.ts`). -/
def deleteDeploymentDir (fs : FS) (userId appName deploymentId : String) : FS :=
  { fs with
    releaseDirs := fs.releaseDirs.filter (fun r => r ≠ (userId, appName, deploymentId))
    mains := fs.mains.filter (fun r => r ≠ (userId, appName, deploymentId)) }

/-! ## Process manager model (ProcessManager, src/unnamed/part_005) -/

/-- An entry of the in-memory process table: the spawned child process is
represented by its pid and the path it was started from. -/
structure ProcEntry where
  appId : String
  appPath : String
  pid : Nat
deriving DecidableEq, Repr

/-- The whole mutable world: the KV store, the filesystem and the
supervisor's in-memory process table.  `nextPid` supplies the pid of the
next spawned process. -/
structure World where
  db : KVState
  fs : FS
  procs : List (String × ProcEntry)
  nextPid : Nat
deriving DecidableEq, Repr

/-- ProcessManager.stopApp: with no process-table entry it logs a warning
and returns without touching anything; otherwise it kills the process,
removes the table entry and cancels capture, then persists status "stopped"
and clears the process id.  The returned world carries the mutations
performed before a throw. -/
def stopApp (w : World) (appId : String) : World × Except String Unit :=
  match alGet w.procs appId with
  | none => (w, .ok ())
  | some _ =>
    let w1 : World := { w with procs := alDel w.procs appId }
    match updateApp w1.db appId
        (fun a => { a with status := .stopped, processId := none }) with
    | .error e => (w1, .error e)
    | .ok db => ({ w1 with db := db }, .ok ())

/-- Error path of ProcessManager.startApp: persist status "error" and
rethrow the original error (a failure of the status write itself replaces
the error, as an exception inside the catch block would). -/
def startAppCatch (w : World) (appId : String) (e : String) : World × Except String Unit :=
  match updateApp w.db appId (fun a => { a with status := .error }) with
  | .error e2 => (w, .error e2)
  | .ok db => ({ w with db := db }, .error e)

/-- ProcessManager.startApp: stops an existing process for the app first,
spawns the entry point of `appPath`, records the process-table entry, and
persists status "running" with the new pid.  The capture loops and the
exit-watcher are concurrent tasks and are modelled separately
(`monitorProcess`). -/
def startApp (w : World) (app : App) (appPath : String) : World × Except String Unit :=
  match (if (alGet w.procs app.id).isSome then stopApp w app.id else (w, .ok ())) with
  | (w1, .error e) => startAppCatch w1 app.id e
  | (w1, .ok _) =>
    let pid := w1.nextPid
    let w2 : World := { w1 with
      procs := alSet w1.procs app.id { appId := app.id, appPath := appPath, pid := pid }
      nextPid := w1.nextPid + 1 }
    match updateApp w2.db app.id
        (fun a => { a with status := .running, processId := some pid }) with
    | .error e => startAppCatch w2 app.id e
    | .ok db => ({ w2 with db := db }, .ok ())

/-- ProcessManager.restartApp: stop followed by start. -/
def restartApp (w : World) (app : App) (appPath : String) : World × Except String Unit :=
  match stopApp w app.id with
  | (w1, .error e) => (w1, .error e)
  | (w1, .ok _) => startApp w1 app appPath

/-- ProcessManager.monitorProcess, applied at the moment the watched process
exits: removes the process-table entry and persists status "stopped" when
the exit was successful (code 0) and "crashed" otherwise, clearing the
process id.  Errors are caught and only logged. -/
def monitorProcess (w : World) (appId : String) (success : Bool) : World :=
  let w1 : World := { w with procs := alDel w.procs appId }
  match updateApp w1.db appId
      (fun a => { a with status := if success then .stopped else .crashed,
                         processId := none }) with
  | .error _ => w1
  | .ok db => { w1 with db := db }

/-! ## Deployment pipeline (DeploymentService, src/core/deployment.ts) -/

/-- Options of DeploymentService.deployApp.  The artifact bytes are
abstracted by the two facts the pipeline branches on: whether the archive
can be extracted at all, and whether the materialized artifact contains the
`main.ts` entry point (for a single-file upload the file is written as
`main.ts` directly, so it always does). -/
structure DeploymentOptions where
  fileType : FileType
  deployedBy : String
  zipExtractOk : Bool
  zipHasMain : Bool
deriving DecidableEq, Repr

/-- File handling of deployApp: the "single" branch writes the uploaded file
as the entry point; the "zip" branch saves the archive, extracts it into the
release directory and discards the archive (a failed extraction throws). -/
def handleFile (fs : FS) (app : App) (opts : DeploymentOptions) (deploymentId : String) :
    FS × Except String Unit :=
  match opts.fileType with
  | .single => (writeMainFile fs app.userId app.name deploymentId, .ok ())
  | .zip =>
    if opts.zipExtractOk then
      (if opts.zipHasMain then writeMainFile fs app.userId app.name deploymentId else fs,
       .ok ())
    else (fs, .error "Failed to extract ZIP")

/-- Catch block of deployApp: persist the deployment as "failed" with the
captured error message and build log, set the application status to "error",
and rethrow the original error.  A failure of either write inside the catch
replaces the propagated error, as in the source. -/
def deployCatch (w : World) (appId deploymentId errMsg : String) :
    World × Except String Deployment :=
  match updateDeployment w.db deploymentId
      (fun d => { d with status := .failed, errorMessage := some errMsg,
                         buildLogs := "Build failed: " ++ errMsg }) with
  | .error e2 => (w, .error e2)
  | .ok db =>
    match updateApp db appId (fun a => { a with status := .error }) with
    | .error e2 => ({ w with db := db }, .error e2)
    | .ok db2 => ({ w with db := db2 }, .error errMsg)

/-- Demotion loop of deployApp: every previously fetched deployment that was
"active" is updated to "inactive". -/
def demoteLoop (db : KVState) : List Deployment → KVState × Except String Unit
  | [] => (db, .ok ())
  | d :: t =>
    if d.status = .active then
      match updateDeployment db d.id (fun x => { x with status := .inactive }) with
      | .error e => (db, .error e)
      | .ok db2 => demoteLoop db2 t
    else demoteLoop db t

/-- Deletion loop of cleanupOldDeployments: skips the active deployment,
re-fetches the app for its path coordinates, and deletes the release
directory of every other listed deployment. -/
def cleanupLoop (w : World) (appId : String) : List Deployment → World
  | [] => w
  | d :: t =>
    if d.status = .active then cleanupLoop w appId t
    else
      match getAppById w.db appId with
      | none => cleanupLoop w appId t
      | some app =>
        cleanupLoop { w with fs := deleteDeploymentDir w.fs app.userId app.name d.id } appId t

/-- DeploymentService.cleanupOldDeployments: fetches the app's deployments
(with the store's default scan limit), and when more than
`maxDeploymentsPerApp` came back, deletes the on-disk artifacts of the
entries beyond that cap.  All failures are caught and logged, never
rethrown. -/
def cleanupOldDeployments (w : World) (appId : String) : World :=
  let deployments := getDeploymentsByApp w.db appId
  if deployments.length > maxDeploymentsPerApp then
    cleanupLoop w appId (deployments.drop maxDeploymentsPerApp)
  else w

/-- DeploymentService.deployApp: fetches the previous deployments (with the
store's default scan limit), assigns `version = previous.length + 1`,
persists a "building" deployment record and app status, materializes and
validates the release, activates it, marks it "active", demotes the
previously fetched active deployment, updates the app's current-deployment
pointer, restarts the process from the `current` path, and prunes old
deployments.  Every throw inside the `try` block lands in `deployCatch`. -/
def deployApp (w : World) (app : App) (opts : DeploymentOptions) (deploymentId : String) :
    World × Except String Deployment :=
  let previousDeployments := getDeploymentsByApp w.db app.id
  let version := previousDeployments.length + 1
  let dep0 : Deployment := {
    id := deploymentId, appId := app.id, version := version,
    deployedBy := opts.deployedBy, status := .building,
    fileType := opts.fileType, filePath := "", buildLogs := "", errorMessage := none }
  let w0 : World := { w with db := createDeployment w.db dep0 }
  match updateApp w0.db app.id (fun a => { a with status := .building }) with
  | .error e => deployCatch w0 app.id deploymentId e
  | .ok db0 =>
    let wA : World := { w0 with db := db0 }
    let dirResult := createDeploymentDirectory wA.fs app.userId app.name deploymentId
    let deploymentPath := dirResult.2
    let wB : World := { wA with fs := dirResult.1 }
    match handleFile wB.fs app opts deploymentId with
    | (fs1, .error e) => deployCatch { wB with fs := fs1 } app.id deploymentId e
    | (fs1, .ok _) =>
      let wC : World := { wB with fs := fs1 }
      if ¬ validateMainFile wC.fs app.userId app.name deploymentId then
        deployCatch wC app.id deploymentId "main.ts not found in deployment"
      else
        let actResult := activateDeployment wC.fs app.userId app.name deploymentId
        let currentPath := actResult.2
        let wD : World := { wC with fs := actResult.1 }
        match updateDeployment wD.db deploymentId
            (fun d => { d with status := .active,
                               buildLogs := "Build completed successfully" }) with
        | .error e => deployCatch wD app.id deploymentId e
        | .ok db1 =>
          match demoteLoop db1 previousDeployments with
          | (db2, .error e) => deployCatch { wD with db := db2 } app.id deploymentId e
          | (db2, .ok _) =>
            match updateApp db2 app.id
                (fun a => { a with currentDeploymentId := some deploymentId,
                                   status := .stopped }) with
            | .error e => deployCatch { wD with db := db2 } app.id deploymentId e
            | .ok db3 =>
              let wE : World := { wD with db := db3 }
              match restartApp wE app currentPath with
              | (wF, .error e) => deployCatch wF app.id deploymentId e
              | (wF, .ok _) =>
                let wG := cleanupOldDeployments wF app.id
                (wG, .ok { dep0 with filePath := deploymentPath, status := .active,
                                     buildLogs := "Build completed successfully" })

/-- Status-update loop of rollbackDeployment: the target deployment is set
"active"; any other fetched deployment that was "active" is set
"inactive". -/
def rollbackLoop (db : KVState) (deploymentId : String) :
    List Deployment → KVState × Except String Unit
  | [] => (db, .ok ())
  | d :: t =>
    if d.id = deploymentId then
      match updateDeployment db d.id (fun x => { x with status := .active }) with
      | .error e => (db, .error e)
      | .ok db2 => rollbackLoop db2 deploymentId t
    else if d.status = .active then
      match updateDeployment db d.id (fun x => { x with status := .inactive }) with
      | .error e => (db, .error e)
      | .ok db2 => rollbackLoop db2 deploymentId t
    else rollbackLoop db deploymentId t

/-- DeploymentService.rollbackDeployment: rejects a missing app, a missing
deployment, and any target whose status is not "inactive"; otherwise
re-points the `current` symlink at the target's existing release directory
(no new one is materialized), updates the statuses of the fetched
deployments, sets the app's current-deployment pointer, and restarts the
process from the `current` path. -/
def rollbackDeployment (w : World) (appId deploymentId : String) :
    World × Except String Unit :=
  match getAppById w.db appId with
  | none => (w, .error "App not found")
  | some app =>
    match getDeploymentById w.db deploymentId with
    | none => (w, .error "Deployment not found")
    | some dep =>
      if dep.status ≠ .inactive then
        (w, .error "Can only rollback to inactive deployments")
      else
        let actResult := activateDeployment w.fs app.userId app.name deploymentId
        let currentPath := actResult.2
        let w1 : World := { w with fs := actResult.1 }
        let deployments := getDeploymentsByApp w1.db appId
        match rollbackLoop w1.db deploymentId deployments with
        | (db1, .error e) => ({ w1 with db := db1 }, .error e)
        | (db1, .ok _) =>
          match updateApp db1 appId
              (fun a => { a with currentDeploymentId := some deploymentId }) with
          | .error e => ({ w1 with db := db1 }, .error e)
          | .ok db2 =>
            let w2 : World := { w1 with db := db2 }
            restartApp w2 app currentPath

/-! ## Port allocation as performed by the create-app route
(src/unnamed/part_009, `apps.post("/")`) -/

/-- The create-app route allocates a port by a plain read
(`getNextAvailablePort`) and only later writes the assignment
(`assignPort`) — two separate store operations with no atomic check in
between.  This models two concurrent create requests whose port reads both
happen before either write, an interleaving nothing in the route excludes. -/
def twoConcurrentCreates (db : KVState) (idA idB : String) :
    Except String (Nat × Nat × KVState) :=
  match getNextAvailablePort db defaultStartPort with
  | .error e => .error e
  | .ok portA =>
    match getNextAvailablePort db defaultStartPort with
    | .error e => .error e
    | .ok portB =>
      let db1 := assignPort db portA idA
      let db2 := assignPort db1 portB idB
      .ok (portA, portB, db2)

/-! ## Sequences of app-record operations (for the index-consistency claim) -/

/-- One store operation on App records: creation, a partial update (the
merge `{ ...app, ...updates }` represented as a function), or deletion. -/
inductive AppOp where
  | create : App → AppOp
  | update : String → (App → App) → AppOp
  | delete : String → AppOp

/-- Apply one operation; a thrown error (failed atomic check, missing
record) leaves the store unchanged, as the failed commit does. -/
def applyAppOp (db : KVState) : AppOp → KVState
  | .create a =>
    match createApp db a with
    | .ok db2 => db2
    | .error _ => db
  | .update id f =>
    match updateApp db id f with
    | .ok db2 => db2
    | .error _ => db
  | .delete id => deleteApp db id

/-- Run a sequence of app operations. -/
def runAppOps (db : KVState) (ops : List AppOp) : KVState :=
  ops.foldl applyAppOp db

/-- An update is benign when it changes neither the owner nor the
subdomain — true of every `updateApp` call site in the repository (they
update `name`, `envVars`, `customDomains`, `status`, `processId`,
`currentDeploymentId`). -/
def goodOp : AppOp → Prop
  | .update _ f => ∀ a, (f a).userId = a.userId ∧ (f a).subdomain = a.subdomain
  | _ => True

/-- Index-consistency invariant for App records: the per-user index and the
subdomain index agree exactly with the primary family. -/
def AppSync (db : KVState) : Prop :=
  (∀ id a, alGet db.apps id = some a →
      alGet db.appsByUser (a.userId, id) = some a ∧
      alGet db.appsBySubdomain a.subdomain = some id) ∧
  (∀ u id a, alGet db.appsByUser (u, id) = some a →
      u = a.userId ∧ alGet db.apps id = some a) ∧
  (∀ s id, alGet db.appsBySubdomain s = some id →
      ∃ a, alGet db.apps id = some a ∧ a.subdomain = s)

/-! ## Observation helpers -/

/-- Number of deployment records of an app whose status is "active". -/
def countActiveDeployments (db : KVState) (appId : String) : Nat :=
  (db.deployments.filter
    (fun p => decide (p.2.appId = appId ∧ p.2.status = DeploymentStatus.active))).length

/-- Message of a thrown error, if the computation threw. -/
def exceptErrorMsg {α : Type} : Except String α → Option String
  | .error e => some e
  | .ok _ => none

/-- Persisted status of a deployment record. -/
def depStatus (w : World) (deploymentId : String) : Option DeploymentStatus :=
  (kvGet w.db.deployments deploymentId).map Deployment.status

/-- Persisted status of an app record. -/
def appStatus (w : World) (appId : String) : Option AppStatus :=
  (alGet w.db.apps appId).map App.status

/-! ## Concrete fixtures for the counterexample and failing-input theorems -/

/-- Deployment record fixture for the app "app1". -/
def mkDep (i : String) (v : Nat) (st : DeploymentStatus) : Deployment :=
  { id := i, appId := "app1", version := v, deployedBy := "u1", status := st,
    fileType := .single, filePath := "", buildLogs := "", errorMessage := none }

/-- App fixture: stopped, with "d00" as its current deployment. -/
def app1 : App :=
  { id := "app1", userId := "u1", name := "web", subdomain := "web",
    customDomains := [], status := .stopped, port := 8001, processId := none,
    currentDeploymentId := some "d00" }

/-- Eleven deployment records for "app1" (one more than the store's scan
limit), ascending ids "d00".."d10", versions 1..11; "d00" is the active
one.  These records are what eleven sequential deploys leave behind:
`cleanupOldDeployments` deletes only on-disk artifacts, never store
records. -/
def elevenDeps : List (String × Deployment) :=
  [("d00", mkDep "d00" 1 .active), ("d01", mkDep "d01" 2 .inactive),
   ("d02", mkDep "d02" 3 .inactive), ("d03", mkDep "d03" 4 .inactive),
   ("d04", mkDep "d04" 5 .inactive), ("d05", mkDep "d05" 6 .inactive),
   ("d06", mkDep "d06" 7 .inactive), ("d07", mkDep "d07" 8 .inactive),
   ("d08", mkDep "d08" 9 .inactive), ("d09", mkDep "d09" 10 .inactive),
   ("d10", mkDep "d10" 11 .inactive)]

/-- Release-directory coordinates of the eleven deployments. -/
def elevenDirs : List (String × String × String) :=
  (elevenDeps.map Prod.fst).map (fun i => ("u1", "web", i))

/-- World with app "app1" stopped and eleven retained deployments, "d00"
(the id the reverse limit-10 scan never reaches) being the active one. -/
def w11 : World :=
  { db := { apps := [("app1", app1)], appsByUser := [(("u1", "app1"), app1)],
            appsBySubdomain := [("web", "app1")], deployments := elevenDeps,
            ports := [(8001, "app1")] }
    fs := { releaseDirs := elevenDirs, mains := elevenDirs,
            currentLink := [(("u1", "web"), "d00")] }
    procs := []
    nextPid := 100 }

/-- Single-file deployment options. -/
def optsSingle : DeploymentOptions :=
  { fileType := .single, deployedBy := "u1", zipExtractOk := true, zipHasMain := true }

/-- App fixture variant for the rollback scenario: "d01" is active. -/
def app1r : App :=
  { app1 with currentDeploymentId := some "d01" }

/-- The eleven deployments with "d00" inactive (the rollback target) and
"d01" active. -/
def elevenDepsR : List (String × Deployment) :=
  kvInsert (kvInsert elevenDeps "d00" (mkDep "d00" 1 .inactive))
    "d01" (mkDep "d01" 2 .active)

/-- World for the rollback failing input: eleven deployments, "d01" active,
"d00" the inactive rollback target. -/
def w11r : World :=
  { db := { apps := [("app1", app1r)], appsByUser := [(("u1", "app1"), app1r)],
            appsBySubdomain := [("web", "app1")], deployments := elevenDepsR,
            ports := [(8001, "app1")] }
    fs := { releaseDirs := elevenDirs, mains := elevenDirs,
            currentLink := [(("u1", "web"), "d01")] }
    procs := []
    nextPid := 100 }

/-- Running app fixture with one active deployment. -/
def appRun : App :=
  { app1 with status := .running, processId := some 42 }

/-- World with "app1" running its active deployment "d00": one deployment
record, the release on disk, the `current` link on it, and a live process
entry. -/
def wRun : World :=
  { db := { apps := [("app1", appRun)], appsByUser := [(("u1", "app1"), appRun)],
            appsBySubdomain := [("web", "app1")], deployments := [("d00", mkDep "d00" 1 .active)],
            ports := [(8001, "app1")] }
    fs := { releaseDirs := [("u1", "web", "d00")], mains := [("u1", "web", "d00")],
            currentLink := [(("u1", "web"), "d00")] }
    procs := [("app1", { appId := "app1", appPath := currentPathOf "u1" "web", pid := 42 })]
    nextPid := 100 }

/-- Store in which port 65535 is assigned and every other port is free. -/
def dbPort : KVState :=
  { emptyKV with ports := [(65535, "appX")] }

/-- A fresh app record owned by "u1" under subdomain "s1". -/
def appX : App :=
  { id := "a1", userId := "u1", name := "n", subdomain := "s1",
    customDomains := [], status := .stopped, port := 8001, processId := none,
    currentDeploymentId := none }

/-- Create "a1" and then update it with a partial update that changes its
owner, as `updateApp(appId, { userId: "u2" })` would. -/
def ownerChangeOps : List AppOp :=
  [AppOp.create appX, AppOp.update "a1" (fun a => { a with userId := "u2" })]

/-- The store after the owner-changing update. -/
def dbDesync : KVState :=
  runAppOps emptyKV ownerChangeOps

/-! ## Association-list lemmas -/

theorem alGet_alSet_self {κ α : Type} [DecidableEq κ] (l : List (κ × α)) (k : κ) (v : α) :
    alGet (alSet l k v) k = some v := by
  induction l with
  | nil => simp [alSet, alGet]
  | cons p t ih =>
    obtain ⟨k1, v1⟩ := p
    by_cases h : k = k1
    · simp [alSet, h, alGet]
    · simp [alSet, h, alGet, ih]

theorem alGet_alSet_ne {κ α : Type} [DecidableEq κ] (l : List (κ × α)) (k k2 : κ) (v : α)
    (h : k2 ≠ k) : alGet (alSet l k v) k2 = alGet l k2 := by
  induction l with
  | nil => simp [alSet, alGet, h]
  | cons p t ih =>
    obtain ⟨k1, v1⟩ := p
    by_cases h1 : k = k1
    · subst h1
      simp [alSet, alGet, h]
    · by_cases h2 : k2 = k1
      · simp [alSet, alGet, h1, h2]
      · simp [alSet, alGet, h1, h2, ih]

theorem alGet_alDel_self {κ α : Type} [DecidableEq κ] (l : List (κ × α)) (k : κ) :
    alGet (alDel l k) k = none := by
  induction l with
  | nil => simp [alDel, alGet]
  | cons p t ih =>
    obtain ⟨k1, v1⟩ := p
    by_cases h1 : k1 = k
    · simpa [alDel, List.filter, h1] using ih
    · have h2 : k ≠ k1 := fun h => h1 h.symm
      simpa [alDel, List.filter, h1, alGet, h2] using ih

theorem alGet_alDel_ne {κ α : Type} [DecidableEq κ] (l : List (κ × α)) (k k2 : κ)
    (h : k2 ≠ k) : alGet (alDel l k) k2 = alGet l k2 := by
  induction l with
  | nil => simp [alDel]
  | cons p t ih =>
    obtain ⟨k1, v1⟩ := p
    by_cases h1 : k1 = k
    · simpa [alDel, List.filter, h1, alGet, h] using ih
    · by_cases h2 : k2 = k1
      · simp [alDel, List.filter, h1, alGet, h2]
      · simpa [alDel, List.filter, h1, alGet, h2] using ih

set_option maxRecDepth 8000

/-- C1: the claim that at most one deployment per application is "active"
at every observation point fails on the code.  In the world `w11` the app
has eleven retained deployment records and the active one, "d00", has the
lexicographically smallest id, so the reverse scan capped at the default
limit 10 (`getDeploymentsByApp`) never returns it.  A completed `deployApp`
therefore marks the new deployment "active" without demoting "d00": the
deploy succeeds and afterwards two deployments of "app1" are "active". -/
theorem deployApp_breaks_single_active_invariant :
    (deployApp w11 app1 optsSingle "d11").2.toOption.isSome = true ∧
    countActiveDeployments w11.db "app1" = 1 ∧
    countActiveDeployments (deployApp w11 app1 optsSingle "d11").1.db "app1" = 2 := by
  decide

/-- C2: the claim that `deployApp` assigns version numbers equal to the
count of existing deployments plus one, equal to max existing plus one, and
unique per application, fails on the code.  In `w11` the app has eleven
deployments with versions 1..11, but `deployApp` computes the version from
the scan capped at 10 records, so the twelfth deployment is assigned
version 11 — a duplicate of an existing version, and not 11 + 1 = 12. -/
theorem deployApp_version_duplicate :
    (deployApp w11 app1 optsSingle "d11").2.toOption.map Deployment.version = some 11 ∧
    (kvGet w11.db.deployments "d10").map Deployment.version = some 11 ∧
    (w11.db.deployments.filter (fun p => decide (p.2.appId = "app1"))).length = 11 := by
  decide

/-- C4: the claim that a successful `rollbackDeployment` makes the target
deployment "active" fails on the code.  In `w11r` the target "d00" is
"inactive" (so the rollback is accepted) but has the lexicographically
smallest of the app's eleven deployment ids, so the status-update loop —
which only walks the scan capped at the default limit 10 — never reaches
it: the rollback returns success, the target is still "inactive", and the
demotion of the formerly active "d01" leaves the app with no active
deployment at all. -/
theorem rollback_succeeds_without_activating_target :
    (rollbackDeployment w11r "app1" "d00").2.toOption = some () ∧
    depStatus w11r "d00" = some DeploymentStatus.inactive ∧
    depStatus (rollbackDeployment w11r "app1" "d00").1 "d00" =
      some DeploymentStatus.inactive ∧
    countActiveDeployments (rollbackDeployment w11r "app1" "d00").1.db "app1" = 0 := by
  decide

/-- C5: the claim that concurrent allocation calls never return the same
port fails on the code.  The create-app route reads a free port with
`getNextAvailablePort` and only later writes the assignment with
`assignPort`; when the reads of two concurrent requests both happen before
either write (`twoConcurrentCreates`), both requests are handed port 8001
from the empty store. -/
theorem concurrent_port_allocation_duplicate :
    (twoConcurrentCreates emptyKV "appA" "appB").toOption.map
      (fun r => (r.1, r.2.1)) = some (8001, 8001) := by
  decide

/-- C6 counterexample: the claim that `getNextAvailablePort` throws "when no
port below 65536 is free" is false.  In `dbPort` only port 65535 is
assigned — port 8001, among many below 65536, is free — yet the call
starting at 65535 throws "No available ports", because the scan only covers
the range from `startPort` upward. -/
theorem port_exhaustion_despite_free_port :
    exceptErrorMsg (getNextAvailablePort dbPort 65535) = some "No available ports" ∧
    getPortAssignment dbPort 8001 = none ∧ 8001 < 65536 := by
  decide

/-- Contract of the scan loop of getNextAvailablePort: starting at `port`
with enough fuel, it either returns the smallest unassigned port in
`[port, 65535]` or throws "No available ports" when every port in that
range is assigned. -/
theorem nextPortLoop_contract (db : KVState) :
    ∀ fuel port, port ≤ 65535 → 65535 - port < fuel →
    (∃ p, nextPortLoop db port fuel = .ok p ∧ port ≤ p ∧ p ≤ 65535 ∧
      getPortAssignment db p = none ∧
      ∀ q, port ≤ q → q < p → (getPortAssignment db q).isSome = true) ∨
    (nextPortLoop db port fuel = .error "No available ports" ∧
      ∀ q, port ≤ q → q ≤ 65535 → (getPortAssignment db q).isSome = true) := by
  intro fuel
  induction fuel with
  | zero => intro port h1 h2; omega
  | succ n ih =>
    intro port h1 h2
    cases hpa : getPortAssignment db port with
    | none =>
      left
      exact ⟨port, by simp [nextPortLoop, hpa], le_refl _, h1, hpa,
        fun q hq1 hq2 => absurd (lt_of_le_of_lt hq1 hq2) (lt_irrefl _)⟩
    | some a =>
      by_cases hb : port + 1 > 65535
      · right
        refine ⟨by simp [nextPortLoop, hpa, hb], fun q hq1 hq2 => ?_⟩
        have hq : q = port := by omega
        subst hq
        simp [hpa]
      · have hport : port + 1 ≤ 65535 := by omega
        have hfuel : 65535 - (port + 1) < n := by omega
        rcases ih (port + 1) hport hfuel with ⟨p, hp1, hp2, hp3, hp4, hp5⟩ | ⟨he, hall⟩
        · left
          refine ⟨p, by simp [nextPortLoop, hpa, hb, hp1], by omega, hp3, hp4,
            fun q hq1 hq2 => ?_⟩
          by_cases hq : q = port
          · subst hq; simp [hpa]
          · exact hp5 q (by omega) hq2
        · right
          refine ⟨by simp [nextPortLoop, hpa, hb, he], fun q hq1 hq2 => ?_⟩
          by_cases hq : q = port
          · subst hq; simp [hpa]
          · exact hall q (by omega) hq2

/-- C6 corrected: for every starting port at most 65535,
`getNextAvailablePort` either returns the smallest port in
`[startPort, 65535]` with no existing assignment — scanning upward and
skipping assigned ports — or throws "No available ports" exactly when
every port in `[startPort, 65535]` is assigned.  (The original claim's
exhaustion condition, "no port below 65536 is free", is wrong: ports below
`startPort` are never considered.) -/
theorem getNextAvailablePort_contract (db : KVState) (startPort : Nat)
    (h : startPort ≤ 65535) :
    (∃ p, getNextAvailablePort db startPort = .ok p ∧ startPort ≤ p ∧ p ≤ 65535 ∧
      getPortAssignment db p = none ∧
      ∀ q, startPort ≤ q → q < p → (getPortAssignment db q).isSome = true) ∨
    (getNextAvailablePort db startPort = .error "No available ports" ∧
      ∀ q, startPort ≤ q → q ≤ 65535 → (getPortAssignment db q).isSome = true) := by
  have h2 := nextPortLoop_contract db 65536 startPort h (by omega)
  simpa [getNextAvailablePort] using h2

/-- C6 witness: the contract applied to the concrete store `dbPort` and the
default starting port 8001. -/
theorem getNextAvailablePort_contract_witness :
    (∃ p, getNextAvailablePort dbPort 8001 = .ok p ∧ 8001 ≤ p ∧ p ≤ 65535 ∧
      getPortAssignment dbPort p = none ∧
      ∀ q, 8001 ≤ q → q < p → (getPortAssignment dbPort q).isSome = true) ∨
    (getNextAvailablePort dbPort 8001 = .error "No available ports" ∧
      ∀ q, 8001 ≤ q → q ≤ 65535 → (getPortAssignment dbPort q).isSome = true) :=
  getNextAvailablePort_contract dbPort 8001 (by decide)

/-- C7 counterexample: the claim that the exit-watcher marks an application
"crashed" exactly when its process exits without having been asked to stop
is false.  In `wRun` the app is running and nothing has called `stopApp`;
its process exits on its own with a successful exit code, and the
exit-watcher (`monitorProcess`) persists "stopped", not "crashed" — the
code distinguishes by exit code, not by whether a stop was requested. -/
theorem clean_unrequested_exit_marked_stopped :
    (alGet wRun.procs "app1").isSome = true ∧
    appStatus (monitorProcess wRun "app1" true) "app1" = some AppStatus.stopped ∧
    appStatus (monitorProcess wRun "app1" true) "app1" ≠ some AppStatus.crashed := by
  decide

/-- C7 corrected: what the exit-watcher actually guarantees for an existing
application record: the persisted status becomes "stopped" on a successful
exit and "crashed" on an unsuccessful one — so "crashed" holds exactly when
`success = false`, independent of whether a stop was requested — and the
process-table entry is removed and the persisted process id cleared. -/
theorem monitorProcess_status_by_exit_code (w : World) (appId : String) (success : Bool)
    (a0 : App) (h : alGet w.db.apps appId = some a0) :
    appStatus (monitorProcess w appId success) appId =
      some (if success then AppStatus.stopped else AppStatus.crashed) ∧
    (appStatus (monitorProcess w appId success) appId = some AppStatus.crashed ↔
      success = false) ∧
    alGet (monitorProcess w appId success).procs appId = none ∧
    (alGet (monitorProcess w appId success).db.apps appId).map App.processId =
      some none := by
  cases success <;>
    simp [monitorProcess, updateApp, h, appStatus, alGet_alSet_self, alGet_alDel_self]

/-- C7 witness: the exit-watcher theorem applied to the running world `wRun`
with an unsuccessful exit. -/
theorem monitorProcess_status_by_exit_code_witness :
    appStatus (monitorProcess wRun "app1" false) "app1" =
      some (if false then AppStatus.stopped else AppStatus.crashed) ∧
    (appStatus (monitorProcess wRun "app1" false) "app1" = some AppStatus.crashed ↔
      false = false) ∧
    alGet (monitorProcess wRun "app1" false).procs "app1" = none ∧
    (alGet (monitorProcess wRun "app1" false).db.apps "app1").map App.processId =
      some none :=
  monitorProcess_status_by_exit_code wRun "app1" false appRun (by decide)

/-- C8: the claim that cleanup deletes the on-disk artifacts of the oldest
deployments beyond the configured cap never happens in the code: the scan
`getDeploymentsByApp` returns at most its default limit of 10 records and
the cap `maxDeploymentsPerApp` defaults to the same 10, so the guard
`deployments.length > maxDeployments` is false in every world — including
`w11`, whose app retains 11 deployments — and `cleanupOldDeployments`
changes nothing, ever.  (The catch-and-log part of the claim holds
trivially: a no-op raises nothing.) -/
theorem cleanupOldDeployments_is_noop (w : World) (appId : String) :
    cleanupOldDeployments w appId = w := by
  have h : (getDeploymentsByApp w.db appId).length ≤ maxDeploymentsPerApp := by
    simp [getDeploymentsByApp, maxDeploymentsPerApp]
  unfold cleanupOldDeployments
  rw [if_neg (Nat.not_lt.mpr h)]

/-- C9: `stopApp` on an application with no entry in the in-memory process
table returns normally and performs no state change at all: no signal, no
process-table mutation, no persisted status write. -/
theorem stopApp_no_process_noop (w : World) (appId : String)
    (h : alGet w.procs appId = none) : stopApp w appId = (w, .ok ()) := by
  simp [stopApp, h]

/-- C9 witness: `stopApp` at the concrete world `w11` (empty process table)
is a no-op. -/
theorem stopApp_no_process_noop_witness : stopApp w11 "app1" = (w11, .ok ()) :=
  stopApp_no_process_noop w11 "app1" (by decide)

/-- C10 counterexample: the claim that for every sequence of `createApp`,
`updateApp` and `deleteApp` operations the record under the primary key and
the record under the per-user index key stay identical is false, because
`updateApp` writes the index entry under the userId read before the merge.
After creating "a1" under owner "u1" and updating it with a partial update
that sets `userId := "u2"`, the primary record carries owner "u2" while the
per-user index has no entry at ("u2", "a1") at all. -/
theorem owner_change_desyncs_user_index :
    (alGet dbDesync.apps "a1").map App.userId = some "u2" ∧
    alGet dbDesync.appsByUser ("u2", "a1") = none := by
  decide

/-- Preservation of the index-consistency invariant by `createApp` (a
failed atomic check leaves the store unchanged). -/
theorem appSync_create (db : KVState) (a : App) (hs : AppSync db) :
    AppSync (applyAppOp db (AppOp.create a)) := by
  unfold applyAppOp createApp
  by_cases hc : (alGet db.apps a.id).isSome || (alGet db.appsBySubdomain a.subdomain).isSome
  · simpa [hc] using hs
  · simp at hc
    obtain ⟨ha, hb⟩ := hc
    obtain ⟨h1, h2, h3⟩ := hs
    simp only [ha, hb, Option.isSome_none, Bool.or_self, Bool.false_eq_true, if_false]
    refine ⟨?_, ?_, ?_⟩
    · intro id b hbg
      by_cases hid : id = a.id
      · subst hid
        rw [alGet_alSet_self] at hbg
        injection hbg with hab
        subst hab
        exact ⟨alGet_alSet_self _ _ _, alGet_alSet_self _ _ _⟩
      · rw [alGet_alSet_ne _ _ _ _ hid] at hbg
        obtain ⟨hbu, hbs⟩ := h1 id b hbg
        have hk2 : (b.userId, id) ≠ (a.userId, a.id) := fun hk => hid (congrArg Prod.snd hk)
        have hsne : b.subdomain ≠ a.subdomain := by
          intro he
          rw [he] at hbs
          rw [hb] at hbs
          cases hbs
        rw [alGet_alSet_ne _ _ _ _ hk2, alGet_alSet_ne _ _ _ _ hsne]
        exact ⟨hbu, hbs⟩
    · intro u id c hcg
      by_cases hk : (u, id) = (a.userId, a.id)
      · rw [hk, alGet_alSet_self] at hcg
        injection hcg with hac
        subst hac
        have hu : u = a.userId := congrArg Prod.fst hk
        have hid : id = a.id := congrArg Prod.snd hk
        subst hu
        subst hid
        exact ⟨rfl, by rw [alGet_alSet_self]⟩
      · rw [alGet_alSet_ne _ _ _ _ hk] at hcg
        obtain ⟨huc, hac⟩ := h2 u id c hcg
        by_cases hid : id = a.id
        · subst hid
          rw [ha] at hac
          cases hac
        · rw [alGet_alSet_ne _ _ _ _ hid]
          exact ⟨huc, hac⟩
    · intro s id hsg
      by_cases hk : s = a.subdomain
      · subst hk
        rw [alGet_alSet_self] at hsg
        injection hsg with hid
        subst hid
        exact ⟨a, by rw [alGet_alSet_self], rfl⟩
      · rw [alGet_alSet_ne _ _ _ _ hk] at hsg
        obtain ⟨c, hcg, hcs⟩ := h3 s id hsg
        by_cases hid : id = a.id
        · subst hid
          rw [ha] at hcg
          cases hcg
        · exact ⟨c, by rw [alGet_alSet_ne _ _ _ _ hid]; exact hcg, hcs⟩

/-- Preservation of the index-consistency invariant by `updateApp` when
the partial update changes neither `userId` nor `subdomain`. -/
theorem appSync_update (db : KVState) (id0 : String) (f : App → App)
    (hf : ∀ a, (f a).userId = a.userId ∧ (f a).subdomain = a.subdomain)
    (hs : AppSync db) : AppSync (applyAppOp db (AppOp.update id0 f)) := by
  unfold applyAppOp updateApp
  cases hget : alGet db.apps id0 with
  | none => simpa [hget] using hs
  | some a =>
    simp only [hget]
    obtain ⟨h1, h2, h3⟩ := hs
    obtain ⟨hold1, hold2⟩ := h1 id0 a hget
    refine ⟨?_, ?_, ?_⟩
    · intro id b hbg
      by_cases hid : id = id0
      · subst hid
        rw [alGet_alSet_self] at hbg
        injection hbg with hab
        subst hab
        constructor
        · rw [(hf a).1, alGet_alSet_self]
        · rw [(hf a).2]
          exact hold2
      · rw [alGet_alSet_ne _ _ _ _ hid] at hbg
        obtain ⟨hbu, hbs⟩ := h1 id b hbg
        have hk2 : (b.userId, id) ≠ (a.userId, id0) := fun hk => hid (congrArg Prod.snd hk)
        rw [alGet_alSet_ne _ _ _ _ hk2]
        exact ⟨hbu, hbs⟩
    · intro u id c hcg
      by_cases hk : (u, id) = (a.userId, id0)
      · rw [hk, alGet_alSet_self] at hcg
        injection hcg with hac
        subst hac
        have hu : u = a.userId := congrArg Prod.fst hk
        have hid : id = id0 := congrArg Prod.snd hk
        subst hu
        subst hid
        refine ⟨((hf a).1).symm, by rw [alGet_alSet_self]⟩
      · rw [alGet_alSet_ne _ _ _ _ hk] at hcg
        obtain ⟨huc, hac⟩ := h2 u id c hcg
        by_cases hid : id = id0
        · subst hid
          rw [hget] at hac
          injection hac with hca
          subst huc
          exact absurd (by rw [hca]) hk
        · rw [alGet_alSet_ne _ _ _ _ hid]
          exact ⟨huc, hac⟩
    · intro s id hsg
      obtain ⟨c, hcg, hcs⟩ := h3 s id hsg
      by_cases hid : id = id0
      · subst hid
        rw [hget] at hcg
        injection hcg with hca
        refine ⟨f a, by rw [alGet_alSet_self], ?_⟩
        rw [(hf a).2, hca]
        exact hcs
      · exact ⟨c, by rw [alGet_alSet_ne _ _ _ _ hid]; exact hcg, hcs⟩

/-- Preservation of the index-consistency invariant by `deleteApp`. -/
theorem appSync_delete (db : KVState) (id0 : String) (hs : AppSync db) :
    AppSync (deleteApp db id0) := by
  unfold deleteApp
  cases hget : alGet db.apps id0 with
  | none => simpa [hget] using hs
  | some a =>
    simp only [hget]
    obtain ⟨h1, h2, h3⟩ := hs
    refine ⟨?_, ?_, ?_⟩
    · intro id b hbg
      by_cases hid : id = id0
      · subst hid
        rw [alGet_alDel_self] at hbg
        cases hbg
      · rw [alGet_alDel_ne _ _ _ hid] at hbg
        obtain ⟨hbu, hbs⟩ := h1 id b hbg
        have hk2 : (b.userId, id) ≠ (a.userId, id0) := fun hk => hid (congrArg Prod.snd hk)
        have hsne : b.subdomain ≠ a.subdomain := by
          intro he
          have := (h1 id0 a hget).2
          rw [he] at hbs
          rw [hbs] at this
          injection this with hii
          exact hid hii
        rw [alGet_alDel_ne _ _ _ hk2, alGet_alDel_ne _ _ _ hsne]
        exact ⟨hbu, hbs⟩
    · intro u id c hcg
      by_cases hk : (u, id) = (a.userId, id0)
      · rw [hk, alGet_alDel_self] at hcg
        cases hcg
      · rw [alGet_alDel_ne _ _ _ hk] at hcg
        obtain ⟨huc, hac⟩ := h2 u id c hcg
        by_cases hid : id = id0
        · subst hid
          rw [hget] at hac
          injection hac with hca
          subst huc
          exact absurd (by rw [hca]) hk
        · rw [alGet_alDel_ne _ _ _ hid]
          exact ⟨huc, hac⟩
    · intro s id hsg
      by_cases hk : s = a.subdomain
      · subst hk
        rw [alGet_alDel_self] at hsg
        cases hsg
      · rw [alGet_alDel_ne _ _ _ hk] at hsg
        obtain ⟨c, hcg, hcs⟩ := h3 s id hsg
        by_cases hid : id = id0
        · subst hid
          rw [hget] at hcg
          injection hcg with hca
          have ha2 : a.subdomain = s := by rw [hca]; exact hcs
          exact absurd ha2.symm hk
        · exact ⟨c, by rw [alGet_alDel_ne _ _ _ hid]; exact hcg, hcs⟩

/-- Preservation of the invariant by any single benign operation. -/
theorem appSync_applyOp (db : KVState) (op : AppOp) (hg : goodOp op) (hs : AppSync db) :
    AppSync (applyAppOp db op) := by
  cases op with
  | create a => exact appSync_create db a hs
  | update id0 f => exact appSync_update db id0 f hg hs
  | delete id0 => exact appSync_delete db id0 hs

/-- Preservation of the invariant by any sequence of benign operations. -/
theorem appSync_run (db : KVState) (ops : List AppOp) (hs : AppSync db)
    (hops : ∀ op ∈ ops, goodOp op) : AppSync (runAppOps db ops) := by
  induction ops generalizing db with
  | nil => simpa [runAppOps] using hs
  | cons op t ih =>
    have h1 : AppSync (applyAppOp db op) := appSync_applyOp db op (hops op (by simp)) hs
    have h2 : ∀ o ∈ t, goodOp o := fun o ho => hops o (by simp [ho])
    simpa [runAppOps] using ih (applyAppOp db op) h1 h2

/-- On a consistent store, `deleteApp` removes the primary record, every
per-user index entry for the id, and every subdomain entry mapping to it. -/
theorem appSync_delete_absent (db : KVState) (id0 : String) (hs : AppSync db) :
    alGet (deleteApp db id0).apps id0 = none ∧
    (∀ u, alGet (deleteApp db id0).appsByUser (u, id0) = none) ∧
    (∀ s, alGet (deleteApp db id0).appsBySubdomain s ≠ some id0) := by
  obtain ⟨h1, h2, h3⟩ := hs
  unfold deleteApp
  cases hget : alGet db.apps id0 with
  | none =>
    refine ⟨hget, fun u => ?_, fun s hcon => ?_⟩
    · cases hcu : alGet db.appsByUser (u, id0) with
      | none => rfl
      | some c =>
        have := (h2 u id0 c hcu).2
        rw [hget] at this
        cases this
    · obtain ⟨c, hcg, _⟩ := h3 s id0 hcon
      rw [hget] at hcg
      cases hcg
  | some a =>
    simp only
    refine ⟨alGet_alDel_self _ _, fun u => ?_, fun s hcon => ?_⟩
    · by_cases hu : (u, id0) = (a.userId, id0)
      · rw [hu]
        exact alGet_alDel_self _ _
      · rw [alGet_alDel_ne _ _ _ hu]
        cases hcu : alGet db.appsByUser (u, id0) with
        | none => rfl
        | some c =>
          obtain ⟨huc, hac⟩ := h2 u id0 c hcu
          rw [hget] at hac
          injection hac with hca
          subst huc
          exact absurd (by rw [hca]) hu
    · by_cases hk : s = a.subdomain
      · subst hk
        rw [alGet_alDel_self] at hcon
        cases hcon
      · rw [alGet_alDel_ne _ _ _ hk] at hcon
        obtain ⟨c, hcg, hcs⟩ := h3 s id0 hcon
        rw [hget] at hcg
        injection hcg with hca
        have ha2 : a.subdomain = s := by rw [hca]; exact hcs
        exact hk ha2.symm

/-- C10 corrected: for every sequence of `createApp`, `updateApp` and
`deleteApp` operations whose updates change neither the owner nor the
subdomain (true of every call site in the repository), starting from any
index-consistent store: the store stays index-consistent, the record under
the primary key ("apps", id) and the record under the per-user index key
("apps_by_user", userId, id) are identical whenever the app exists, and
after a `deleteApp` the primary entry, every per-user index entry of that
id, and every subdomain index entry mapping to it are absent. -/
theorem appOps_keep_indexes_in_sync (db : KVState) (ops : List AppOp)
    (h0 : AppSync db) (hops : ∀ op ∈ ops, goodOp op) :
    AppSync (runAppOps db ops) ∧
    (∀ id a, alGet (runAppOps db ops).apps id = some a →
        alGet (runAppOps db ops).appsByUser (a.userId, id) = some a) ∧
    (∀ id, alGet (deleteApp (runAppOps db ops) id).apps id = none ∧
        (∀ u, alGet (deleteApp (runAppOps db ops) id).appsByUser (u, id) = none) ∧
        (∀ s, alGet (deleteApp (runAppOps db ops) id).appsBySubdomain s ≠ some id)) := by
  have hrun : AppSync (runAppOps db ops) := appSync_run db ops h0 hops
  exact ⟨hrun, fun id a ha => (hrun.1 id a ha).1,
    fun id => appSync_delete_absent (runAppOps db ops) id hrun⟩

/-- C10 witness: the synchronization theorem applied to the empty store and
the one-element operation sequence that creates `appX`. -/
theorem appOps_keep_indexes_in_sync_witness :
    AppSync (runAppOps emptyKV [AppOp.create appX]) ∧
    (∀ id a, alGet (runAppOps emptyKV [AppOp.create appX]).apps id = some a →
        alGet (runAppOps emptyKV [AppOp.create appX]).appsByUser (a.userId, id) = some a) ∧
    (∀ id, alGet (deleteApp (runAppOps emptyKV [AppOp.create appX]) id).apps id = none ∧
        (∀ u, alGet (deleteApp (runAppOps emptyKV [AppOp.create appX]) id).appsByUser
            (u, id) = none) ∧
        (∀ s, alGet (deleteApp (runAppOps emptyKV [AppOp.create appX]) id).appsBySubdomain
            s ≠ some id)) :=
  appOps_keep_indexes_in_sync emptyKV [AppOp.create appX]
    (by
      unfold AppSync
      refine ⟨fun id a h => ?_, fun u id c h => ?_, fun s id h => ?_⟩ <;>
        simp [emptyKV, alGet] at h)
    (by
      intro op hop
      rw [List.mem_singleton] at hop
      subst hop
      trivial)

end Denploy
